import Mathlib

/-!
Verification of the interactive charting engine of the `trading-assistant`
repository, as a shallow embedding in Lean.

* Namespace `SC` embeds the candle normalizer, price-line / overlay renderer
  and oscillator pane allocator of `src/frontend/src/components/StockChart.jsx`.
* Namespace `P7` embeds the pattern annotator and the error path of the second
  chart component (the one that renders pattern series and markers and keeps a
  `localError` state).
* Namespace `Draw` models the drawing-tool state machine of the design
  document, which has no implementation in the source tree.

Modelling conventions: JavaScript numbers are modelled as integers; `NaN`
results of `new Date(...).getTime()` are modelled as an explicit `invalid`
constructor; the local-time calendar used by `getFullYear`/`getMonth`/`getDate`
is modelled with a fixed UTC offset of zero, so the `YYYY-MM-DD` key of an
epoch-millisecond instant is represented by its floored day number.
-/

namespace SC

/-- Result of `new Date(raw).getTime()` for the raw timestamp value
`d.time || d.Date` of a candle record: a finite epoch-millisecond instant,
or `NaN` when the value does not parse. -/
inductive RawTs where
  | valid (ms : Int)
  | invalid
deriving DecidableEq

/-- A JavaScript value sitting in an OHLC field: either a number or a value
that fails the `typeof x === 'number'` test. -/
inductive JsVal where
  | num (v : Int)
  | other
deriving DecidableEq

/-- A raw candle record as supplied by the caller. `inds` holds the optional
indicator fields (`sma_5`, `rsi`, ...) as an association list. -/
structure RawCandle where
  raw : RawTs
  o : JsVal
  h : JsVal
  l : JsVal
  c : JsVal
  volume : Int
  inds : List (String × Int)
deriving DecidableEq

def RawTs.parseMs : RawTs → Option Int
  | .valid ms => some ms
  | .invalid => none

def JsVal.isNum : JsVal → Bool
  | .num _ => true
  | .other => false

def JsVal.toNum : JsVal → Int
  | .num v => v
  | .other => 0

/-- The daily-or-coarser granularity test `["1d","1wk","1mo","1y"].includes(interval)`. -/
def isDaily (interval : String) : Bool :=
  interval = "1d" || interval = "1wk" || interval = "1mo" || interval = "1y"

/-- A canonical chart time: a `YYYY-MM-DD` calendar-day key (represented by its
day number under the fixed-UTC modelling convention) or integer epoch seconds. -/
inductive CTime where
  | day (d : Int)
  | sec (s : Int)
deriving DecidableEq

def msPerDay : Int := 86400000

/-- `formatTime` of `StockChart.jsx`: `null` on `NaN`, a calendar-day key for
daily-or-coarser granularities, floored epoch seconds otherwise. -/
def formatTime (interval : String) : RawTs → Option CTime
  | .invalid => none
  | .valid ms =>
      if isDaily interval then some (.day (ms.fdiv msPerDay))
      else some (.sec (ms.fdiv 1000))

/-- JS truthiness of a canonical time: a `YYYY-MM-DD` string is always truthy,
the number `0` is falsy. -/
def CTime.truthy : CTime → Bool
  | .day _ => true
  | .sec s => s != 0

def CTime.leB : CTime → CTime → Bool
  | .day a, .day b => a ≤ b
  | .sec a, .sec b => a ≤ b
  | _, _ => false

def CTime.ltB : CTime → CTime → Bool
  | .day a, .day b => a < b
  | .sec a, .sec b => a < b
  | _, _ => false

/-- The row filter of the normalizer: the timestamp parses and all four OHLC
fields are numbers. -/
def validRow (d : RawCandle) : Bool :=
  d.raw.parseMs.isSome && d.o.isNum && d.h.isNum && d.l.isNum && d.c.isNum

/-- The `_ts` sort key attached to each record (`NaN` rows are filtered out
before the key is ever compared). -/
def msv (d : RawCandle) : Int := d.raw.parseMs.getD 0

/-- The comparison `(a, b) => a._ts - b._ts` of the sort. -/
def msLe (a b : RawCandle) : Prop := msv a ≤ msv b

instance : DecidableRel msLe := fun a b => inferInstanceAs (Decidable (msv a ≤ msv b))

instance : IsTotal RawCandle msLe := ⟨fun a b => Int.le_total (msv a) (msv b)⟩

instance : IsTrans RawCandle msLe := ⟨fun _ _ _ => Int.le_trans⟩

/-- The filter-then-sort front half of the normalizer. JS `Array.prototype.sort`
is stable, and a stable sort under a total preorder is unique, so the
structurally recursive `List.insertionSort` computes the same list. -/
def processed (data : List RawCandle) : List RawCandle :=
  (data.filter validRow).insertionSort msLe

/-- A candle after normalization: canonical time plus the untouched fields of
the originating record (the code spreads `{ ...d, time: timeVal }`). -/
structure Candle where
  time : CTime
  o : JsVal
  h : JsVal
  l : JsVal
  c : JsVal
  volume : Int
  inds : List (String × Int)
deriving DecidableEq

def remap (d : RawCandle) (t : CTime) : Candle :=
  ⟨t, d.o, d.h, d.l, d.c, d.volume, d.inds⟩

def key (interval : String) (d : RawCandle) : Option CTime :=
  formatTime interval d.raw

/-- The dedup walk of the normalizer:
`if (timeVal && !seenTimes.has(timeVal)) { finalData.push({...d, time: timeVal}); seenTimes.add(timeVal); }`. -/
def walk (interval : String) : List RawCandle → List CTime → List Candle
  | [], _ => []
  | d :: rest, seen =>
    match key interval d with
    | none => walk interval rest seen
    | some t =>
      if t.truthy = true ∧ t ∉ seen then
        remap d t :: walk interval rest (t :: seen)
      else
        walk interval rest seen

/-- The full normalizer of `StockChart.jsx` (the TimeSeriesNormalizer of the
design document). -/
def normalize (interval : String) (data : List RawCandle) : List Candle :=
  walk interval (processed data) []

example : normalize "1d"
    [⟨.valid 5000, .num 10, .num 11, .num 9, .num 10, 0, []⟩]
    = [⟨.day 0, .num 10, .num 11, .num 9, .num 10, 0, []⟩] := by decide

example : normalize "1m"
    [⟨.valid 5000000, .num 10, .num 11, .num 9, .num 10, 0, []⟩]
    = [⟨.sec 5000, .num 10, .num 11, .num 9, .num 10, 0, []⟩] := by decide

example : normalize "1m"
    [⟨.valid 0, .num 10, .num 11, .num 9, .num 10, 0, []⟩] = [] := by decide

theorem walk_mem {interval : String} :
    ∀ {l : List RawCandle} {seen : List CTime} {c : Candle}, c ∈ walk interval l seen →
      ∃ d ∈ l, key interval d = some c.time ∧ c = remap d c.time ∧
        c.time.truthy = true ∧ c.time ∉ seen := by
  intro l
  induction l with
  | nil => intro seen c h; simp [walk] at h
  | cons d rest ih =>
    intro seen c h
    cases hk : key interval d with
    | none =>
      simp only [walk, hk] at h
      obtain ⟨d', hd', hp⟩ := ih h
      exact ⟨d', List.mem_cons_of_mem _ hd', hp⟩
    | some t =>
      simp only [walk, hk] at h
      by_cases hc : t.truthy = true ∧ t ∉ seen
      · rw [if_pos hc] at h
        rcases List.mem_cons.mp h with hc2 | hc2
        · subst hc2
          exact ⟨d, List.mem_cons_self _ _, by simpa [remap] using hk, rfl, hc.1, hc.2⟩
        · obtain ⟨d', hd', hk', he', ht', hs'⟩ := ih hc2
          refine ⟨d', List.mem_cons_of_mem _ hd', hk', he', ht', ?_⟩
          intro hmem
          exact hs' (List.mem_cons_of_mem _ hmem)
      · rw [if_neg hc] at h
        obtain ⟨d', hd', hp⟩ := ih h
        exact ⟨d', List.mem_cons_of_mem _ hd', hp⟩

theorem CTime.ltB_of_leB_ne {a b : CTime} (hle : a.leB b = true) (hne : a ≠ b) :
    a.ltB b = true := by
  cases a <;> cases b <;> simp_all [CTime.leB, CTime.ltB] <;> omega

theorem fdiv_mono {x y n : Int} (hn : 0 < n) (hxy : x ≤ y) : x.fdiv n ≤ y.fdiv n := by
  rw [Int.fdiv_eq_ediv _ (Int.le_of_lt hn), Int.fdiv_eq_ediv _ (Int.le_of_lt hn)]
  exact Int.ediv_le_ediv hn hxy

theorem key_mono {interval : String} {a b : RawCandle} {ta tb : CTime}
    (hka : key interval a = some ta) (hkb : key interval b = some tb)
    (hle : msLe a b) : ta.leB tb = true := by
  cases hra : a.raw with
  | invalid => simp [key, formatTime, hra] at hka
  | valid ma =>
    cases hrb : b.raw with
    | invalid => simp [key, formatTime, hrb] at hkb
    | valid mb =>
      have hm : ma ≤ mb := by simpa [msLe, msv, RawTs.parseMs, hra, hrb] using hle
      by_cases hd : isDaily interval = true
      · simp only [key, formatTime, hra, hrb, hd, if_pos, Option.some.injEq] at hka hkb
        subst hka; subst hkb
        simpa [CTime.leB] using fdiv_mono (by norm_num [msPerDay]) hm
      · rw [Bool.not_eq_true] at hd
        simp only [key, formatTime, hra, hrb, hd, Bool.false_eq_true, if_false,
          Option.some.injEq] at hka hkb
        subst hka; subst hkb
        simpa [CTime.leB] using fdiv_mono (by norm_num) hm

theorem walk_pairwise {interval : String} :
    ∀ {l : List RawCandle} {seen : List CTime}, l.Pairwise msLe →
      (walk interval l seen).Pairwise (fun a b => a.time.ltB b.time = true) := by
  intro l
  induction l with
  | nil => intro seen _; simp [walk]
  | cons d rest ih =>
    intro seen hp
    rcases List.pairwise_cons.mp hp with ⟨hdall, hrest⟩
    cases hk : key interval d with
    | none => simpa only [walk, hk] using ih hrest
    | some t =>
      by_cases hc : t.truthy = true ∧ t ∉ seen
      · simp only [walk, hk, if_pos hc]
        refine List.pairwise_cons.mpr ⟨?_, ih hrest⟩
        intro c' hc'
        obtain ⟨d', hd', hk', _, _, hs'⟩ := walk_mem hc'
        have hle : t.leB c'.time = true := key_mono hk hk' (hdall d' hd')
        have hne : t ≠ c'.time := by
          intro he
          exact hs' (he ▸ List.mem_cons_self _ _)
        simpa [remap] using CTime.ltB_of_leB_ne hle hne
      · simpa only [walk, hk, if_neg hc] using ih hrest

theorem walk_first {interval : String} :
    ∀ {l : List RawCandle} {seen : List CTime} {t : CTime},
      l.Pairwise msLe → t.truthy = true → t ∉ seen →
      (∃ d ∈ l, key interval d = some t) →
      ∃ c ∈ walk interval l seen, c.time = t ∧
        ∃ d₀ ∈ l, key interval d₀ = some t ∧ c = remap d₀ t ∧
          ∀ d ∈ l, key interval d = some t → msv d₀ ≤ msv d := by
  intro l
  induction l with
  | nil =>
    intro seen t _ _ _ hex
    simp at hex
  | cons d rest ih =>
    intro seen t hp htr hseen hex
    rcases List.pairwise_cons.mp hp with ⟨hdall, hrest⟩
    by_cases hkd : key interval d = some t
    · simp only [walk, hkd, if_pos (And.intro htr hseen)]
      refine ⟨remap d t, List.mem_cons_self _ _, by simp [remap], d, List.mem_cons_self _ _,
        hkd, rfl, ?_⟩
      intro d' hd' _
      rcases List.mem_cons.mp hd' with rfl | hd'
      · exact le_refl _
      · exact hdall d' hd'
    · have hex' : ∃ d' ∈ rest, key interval d' = some t := by
        obtain ⟨d', hd', hk'⟩ := hex
        rcases List.mem_cons.mp hd' with rfl | hmem
        · exact absurd hk' hkd
        · exact ⟨d', hmem, hk'⟩
      have hmin_ext : ∀ {c : Candle}, c ∈ walk interval rest (key interval d |>.elim seen (· :: seen)) → True := fun _ => trivial
      cases hk : key interval d with
      | none =>
        simp only [walk, hk]
        obtain ⟨c, hcmem, hct, d₀, hd₀, hk₀, hc₀, hmin⟩ := ih hrest htr hseen hex'
        refine ⟨c, hcmem, hct, d₀, List.mem_cons_of_mem _ hd₀, hk₀, hc₀, ?_⟩
        intro d' hd' hk'
        rcases List.mem_cons.mp hd' with rfl | hd'
        · rw [hk] at hk'; exact absurd hk' (by simp)
        · exact hmin d' hd' hk'
      | some t' =>
        have hne : t' ≠ t := by
          intro he
          exact hkd (he ▸ hk)
        by_cases hc : t'.truthy = true ∧ t' ∉ seen
        · simp only [walk, hk, if_pos hc]
          have hseen' : t ∉ t' :: seen := by
            intro hmem
            rcases List.mem_cons.mp hmem with rfl | hm
            · exact hne rfl
            · exact hseen hm
          obtain ⟨c, hcmem, hct, d₀, hd₀, hk₀, hc₀, hmin⟩ := ih hrest htr hseen' hex'
          refine ⟨c, List.mem_cons_of_mem _ hcmem, hct, d₀, List.mem_cons_of_mem _ hd₀,
            hk₀, hc₀, ?_⟩
          intro d' hd' hk'
          rcases List.mem_cons.mp hd' with rfl | hd'
          · rw [hk] at hk'
            exact absurd (Option.some.inj hk') hne
          · exact hmin d' hd' hk'
        · simp only [walk, hk, if_neg hc]
          obtain ⟨c, hcmem, hct, d₀, hd₀, hk₀, hc₀, hmin⟩ := ih hrest htr hseen hex'
          refine ⟨c, hcmem, hct, d₀, List.mem_cons_of_mem _ hd₀, hk₀, hc₀, ?_⟩
          intro d' hd' hk'
          rcases List.mem_cons.mp hd' with rfl | hd'
          · rw [hk] at hk'
            exact absurd (Option.some.inj hk') hne
          · exact hmin d' hd' hk'

theorem processed_sorted (data : List RawCandle) : (processed data).Pairwise msLe :=
  List.sorted_insertionSort msLe _

theorem processed_mem {data : List RawCandle} {d : RawCandle} :
    d ∈ processed data ↔ d ∈ data ∧ validRow d = true := by
  simp [processed, List.mem_insertionSort, List.mem_filter]

/-- C1 (amended): the normalized output is strictly increasing in canonical
time (hence free of duplicate canonical keys); every output candle originates
from a valid input row (rows with unparsable timestamps or non-numeric OHLC
never survive); and for every *truthy* canonical key hit by some valid input
row, the output keeps exactly the row that sorts earliest by absolute instant,
with its OHLC values. (As stated in the spec the claim fails for the falsy
intraday key `0`: see the counterexample.) -/
theorem claim1_normalize_contract (interval : String) (data : List RawCandle) :
    (normalize interval data).Pairwise (fun a b => a.time.ltB b.time = true)
    ∧ (∀ c ∈ normalize interval data, ∃ d ∈ data, validRow d = true ∧
        key interval d = some c.time ∧ c = remap d c.time)
    ∧ (∀ t : CTime, t.truthy = true →
        (∃ d ∈ data, validRow d = true ∧ key interval d = some t) →
        ∃ c ∈ normalize interval data, c.time = t ∧
          ∃ d₀ ∈ data, validRow d₀ = true ∧ key interval d₀ = some t ∧ c = remap d₀ t ∧
            ∀ d ∈ data, validRow d = true → key interval d = some t → msv d₀ ≤ msv d) := by
  refine ⟨walk_pairwise (processed_sorted data), ?_, ?_⟩
  · intro c hc
    obtain ⟨d, hd, hk, he, _, _⟩ := walk_mem hc
    obtain ⟨hd1, hd2⟩ := processed_mem.mp hd
    exact ⟨d, hd1, hd2, hk, he⟩
  · intro t htr hex
    obtain ⟨d, hd, hval, hk⟩ := hex
    obtain ⟨c, hcmem, hct, d₀, hd₀, hk₀, hc₀, hmin⟩ :=
      walk_first (processed_sorted data) htr (List.not_mem_nil t)
        ⟨d, processed_mem.mpr ⟨hd, hval⟩, hk⟩
    obtain ⟨h1, h2⟩ := processed_mem.mp hd₀
    exact ⟨c, hcmem, hct, d₀, h1, h2, hk₀, hc₀,
      fun d' hd' hv' hk' => hmin d' (processed_mem.mpr ⟨hd', hv'⟩) hk'⟩

/-- C1 counterexample: two valid intraday rows both land on canonical key
`sec 0` (epoch second zero). The claim requires the earlier one to be kept
with its OHLC values, but the `if (timeVal && ...)` truthiness test drops
both, so the normalized output is empty. -/
theorem claim1_cex :
    (validRow ⟨.valid 0, .num 10, .num 11, .num 9, .num 10, 0, []⟩ = true)
    ∧ key "1m" ⟨.valid 0, .num 10, .num 11, .num 9, .num 10, 0, []⟩ = some (.sec 0)
    ∧ (validRow ⟨.valid 500, .num 12, .num 13, .num 11, .num 12, 0, []⟩ = true)
    ∧ key "1m" ⟨.valid 500, .num 12, .num 13, .num 11, .num 12, 0, []⟩ = some (.sec 0)
    ∧ normalize "1m" [⟨.valid 0, .num 10, .num 11, .num 9, .num 10, 0, []⟩,
        ⟨.valid 500, .num 12, .num 13, .num 11, .num 12, 0, []⟩] = [] := by
  decide

/-- C1 witness: the contract applied at a concrete intraday input. -/
theorem claim1_witness :
    ∃ c ∈ normalize "1m" [⟨.valid 7000, .num 1, .num 2, .num 0, .num 1, 3, []⟩],
      c.time = CTime.sec 7 ∧
      ∃ d₀ ∈ [(⟨.valid 7000, .num 1, .num 2, .num 0, .num 1, 3, []⟩ : RawCandle)],
        validRow d₀ = true ∧ key "1m" d₀ = some (CTime.sec 7) ∧ c = remap d₀ (CTime.sec 7) ∧
          ∀ d ∈ [(⟨.valid 7000, .num 1, .num 2, .num 0, .num 1, 3, []⟩ : RawCandle)],
            validRow d = true → key "1m" d = some (CTime.sec 7) → msv d₀ ≤ msv d :=
  (claim1_normalize_contract "1m" _).2.2 (CTime.sec 7) (by decide) (by decide)

/-- How a canonical candle reads when fed back into the component: its `time`
field is re-parsed by `new Date`. A `YYYY-MM-DD` day string parses back to
midnight of that day, but an epoch-seconds *number* is interpreted by the
`Date` constructor as epoch *milliseconds*. -/
def Candle.toRaw (c : Candle) : RawCandle :=
  ⟨match c.time with
    | .day d => .valid (d * msPerDay)
    | .sec s => .valid s,
   c.o, c.h, c.l, c.c, c.volume, c.inds⟩

theorem norm_provenance {interval : String} {data : List RawCandle} {c : Candle}
    (hc : c ∈ normalize interval data) :
    ∃ d ∈ data, validRow d = true ∧ key interval d = some c.time ∧
      c = remap d c.time ∧ c.time.truthy = true := by
  obtain ⟨d, hd, hk, he, htr, _⟩ := walk_mem hc
  obtain ⟨h1, h2⟩ := processed_mem.mp hd
  exact ⟨d, h1, h2, hk, he, htr⟩

theorem norm_day_key {interval : String} (hdaily : isDaily interval = true)
    {data : List RawCandle} {c : Candle} (hc : c ∈ normalize interval data) :
    ∃ n : Int, c.time = .day n := by
  obtain ⟨d, _, _, hk, _, _⟩ := norm_provenance hc
  cases hr : d.raw with
  | invalid => simp [key, formatTime, hr] at hk
  | valid ms =>
    simp only [key, formatTime, hr, hdaily, if_pos, Option.some.injEq] at hk
    exact ⟨ms.fdiv msPerDay, hk.symm⟩

theorem norm_valid_toRaw {interval : String} {data : List RawCandle} {c : Candle}
    (hc : c ∈ normalize interval data) : validRow c.toRaw = true := by
  obtain ⟨d, _, hval, _, he, _⟩ := norm_provenance hc
  have ho : c.o = d.o := by rw [he]; rfl
  have hh : c.h = d.h := by rw [he]; rfl
  have hl : c.l = d.l := by rw [he]; rfl
  have hcc : c.c = d.c := by rw [he]; rfl
  have hp : (Candle.toRaw c).raw.parseMs.isSome = true := by
    cases ht : c.time <;> simp [Candle.toRaw, ht, RawTs.parseMs]
  simp only [validRow, Bool.and_eq_true] at hval ⊢
  exact ⟨⟨⟨⟨hp, by simpa [Candle.toRaw, ho] using hval.1.1.1.2⟩,
    by simpa [Candle.toRaw, hh] using hval.1.1.2⟩,
    by simpa [Candle.toRaw, hl] using hval.1.2⟩,
    by simpa [Candle.toRaw, hcc] using hval.2⟩

theorem norm_toRaw_sorted {interval : String} (hdaily : isDaily interval = true)
    (data : List RawCandle) :
    ((normalize interval data).map Candle.toRaw).Pairwise msLe := by
  have hpw := @walk_pairwise interval (processed data) [] (processed_sorted data)
  refine List.pairwise_map.mpr (List.Pairwise.imp_of_mem ?_ hpw)
  intro a b ha hb hlt
  obtain ⟨na, hna⟩ := norm_day_key hdaily ha
  obtain ⟨nb, hnb⟩ := norm_day_key hdaily hb
  have hltn : na < nb := by simpa [hna, hnb, CTime.ltB] using hlt
  simp only [msLe, msv, Candle.toRaw, hna, hnb, RawTs.parseMs, Option.getD_some]
  exact Int.mul_le_mul_of_nonneg_right (le_of_lt hltn) (by norm_num [msPerDay])

theorem CTime.ne_of_ltB {a b : CTime} (h : a.ltB b = true) : a ≠ b := by
  cases a <;> cases b <;> simp_all [CTime.ltB] <;> omega

theorem norm_times_nodup (interval : String) (data : List RawCandle) :
    ((normalize interval data).map Candle.time).Nodup := by
  have hpw := @walk_pairwise interval (processed data) [] (processed_sorted data)
  exact List.pairwise_map.mpr (hpw.imp fun h => CTime.ne_of_ltB h)

theorem walk_exact {interval : String} :
    ∀ {l : List Candle} {seen : List CTime},
      (∀ c ∈ l, key interval c.toRaw = some c.time ∧ c.time.truthy = true ∧ c.time ∉ seen) →
      (l.map Candle.time).Nodup →
      walk interval (l.map Candle.toRaw) seen = l := by
  intro l
  induction l with
  | nil => intro seen _ _; simp [walk]
  | cons c rest ih =>
    intro seen hall hnd
    obtain ⟨hk, htr, hs⟩ := hall c (List.mem_cons_self _ _)
    simp only [List.map_cons, walk, hk, if_pos (And.intro htr hs)]
    have hrt : remap c.toRaw c.time = c := by cases c; rfl
    rw [hrt]
    congr 1
    apply ih
    · intro c' hc'
      obtain ⟨hk', htr', hs'⟩ := hall c' (List.mem_cons_of_mem _ hc')
      refine ⟨hk', htr', ?_⟩
      intro hmem
      rcases List.mem_cons.mp hmem with he | hm
      · rcases List.nodup_cons.mp hnd with ⟨hnotin, _⟩
        exact hnotin (he ▸ List.mem_map_of_mem Candle.time hc')
      · exact hs' hm
    · exact (List.nodup_cons.mp hnd).2

/-- C2 (amended): normalization is deterministic (it is a pure function of its
input), and for daily-or-coarser granularities re-normalizing the normalized
output is a no-op. For intraday granularities idempotence *fails*, because a
canonical epoch-seconds key is re-parsed by `new Date` as epoch milliseconds
(see the counterexample). -/
theorem claim2_daily_idempotent (interval : String) (data : List RawCandle)
    (hdaily : isDaily interval = true) :
    normalize interval ((normalize interval data).map Candle.toRaw)
      = normalize interval data := by
  have hfilter : ((normalize interval data).map Candle.toRaw).filter validRow
      = (normalize interval data).map Candle.toRaw := by
    rw [List.filter_eq_self]
    intro r hr
    obtain ⟨c, hc, rfl⟩ := List.mem_map.mp hr
    exact norm_valid_toRaw hc
  have hproc : processed ((normalize interval data).map Candle.toRaw)
      = (normalize interval data).map Candle.toRaw := by
    rw [processed, hfilter]
    exact List.Sorted.insertionSort_eq (norm_toRaw_sorted hdaily data)
  show walk interval (processed ((normalize interval data).map Candle.toRaw)) []
      = normalize interval data
  rw [hproc]
  apply walk_exact
  · intro c hc
    obtain ⟨n, hn⟩ := norm_day_key hdaily hc
    obtain ⟨_, _, _, _, _, htr⟩ := norm_provenance hc
    refine ⟨?_, htr, List.not_mem_nil _⟩
    simp only [key, Candle.toRaw, hn, formatTime, hdaily, if_pos, Option.some.injEq]
    rw [Int.mul_fdiv_cancel _ (by norm_num [msPerDay])]
  · exact norm_times_nodup interval data

/-- C2 counterexample: at intraday granularity the canonical epoch-second key
of an output candle is re-parsed by `new Date` as epoch *milliseconds* on a
second pass, so normalizing twice is not the same as normalizing once. -/
theorem claim2_cex :
    normalize "1m" [⟨.valid 5000000, .num 1, .num 2, .num 1, .num 2, 3, []⟩]
      = [⟨.sec 5000, .num 1, .num 2, .num 1, .num 2, 3, []⟩]
    ∧ normalize "1m"
        ((normalize "1m" [⟨.valid 5000000, .num 1, .num 2, .num 1, .num 2, 3, []⟩]).map
          Candle.toRaw)
      = [⟨.sec 5, .num 1, .num 2, .num 1, .num 2, 3, []⟩]
    ∧ normalize "1m"
        ((normalize "1m" [⟨.valid 5000000, .num 1, .num 2, .num 1, .num 2, 3, []⟩]).map
          Candle.toRaw)
      ≠ normalize "1m" [⟨.valid 5000000, .num 1, .num 2, .num 1, .num 2, 3, []⟩] := by
  decide

/-- C2 witness: daily idempotence applied at a concrete input. -/
theorem claim2_witness :
    isDaily "1d" = true
    ∧ normalize "1d"
        ((normalize "1d" [⟨.valid 86400000, .num 1, .num 2, .num 1, .num 2, 3, []⟩]).map
          Candle.toRaw)
      = normalize "1d" [⟨.valid 86400000, .num 1, .num 2, .num 1, .num 2, 3, []⟩] :=
  ⟨by decide, claim2_daily_idempotent "1d" _ (by decide)⟩

/-- The `entry_points` triple of the analysis payload; `none` models an absent
field. -/
structure EntryPoints where
  buy : Option Int
  target : Option Int
  stop : Option Int
deriving DecidableEq

/-- The analysis payload as consumed by `StockChart.jsx`. -/
structure Analysis where
  entry_points : Option EntryPoints
deriving DecidableEq

/-- The `chartConfig` toggle set (the declarative indicator toggles of the
overlay renderer and pane allocator). -/
structure ChartConfig where
  showSMA5 : Bool
  showSMA10 : Bool
  showSMA20 : Bool
  showSMA50 : Bool
  showSMA60 : Bool
  showSMA100 : Bool
  showSMA120 : Bool
  showSMA200 : Bool
  showEMA9 : Bool
  showEMA12 : Bool
  showEMA20 : Bool
  showEMA26 : Bool
  showEMA50 : Bool
  showEMA200 : Bool
  showBB : Bool
  showKC : Bool
  showDC : Bool
  showIchimoku : Bool
  showVWAP : Bool
  showPivot : Bool
  showSAR : Bool
  showAIQuotes : Bool
  showVolume : Bool
  showRSI : Bool
  showRSI9 : Bool
  showRSI25 : Bool
  showMACD : Bool
  showStochastic : Bool
  showCCI : Bool
  showWilliamsR : Bool
  showADX : Bool
  showOBV : Bool
  showMFI : Bool
  showCMF : Bool
  showROC : Bool
  showMomentum : Bool
  showAroon : Bool
  showTSI : Bool
  showUO : Bool
  showATR : Bool
deriving DecidableEq

/-- The initial `useState` value of `chartConfig`. -/
def defaultConfig : ChartConfig :=
  ⟨true, false, true, false, false, false, false, false,
   false, false, false, false, false, false,
   true, false, false, false, false, false, false, true,
   true, false, false, false, false, false,
   false, false, false, false, false, false, false, false, false, false, false, false⟩

/-- JS truthiness of an optional numeric field (`undefined` and `0` are
falsy). -/
def truthyNum : Option Int → Bool
  | some v => v != 0
  | none => false

structure PriceLine where
  title : String
  price : Int
deriving DecidableEq

/-- The three `createPriceLine` calls guarded by `if (buy)`, `if (target)`,
`if (stop)`. -/
def entryTriple (ep : EntryPoints) : List PriceLine :=
  (if truthyNum ep.buy then [⟨"AI ENTRY", ep.buy.getD 0⟩] else [])
    ++ (if truthyNum ep.target then [⟨"AI TARGET", ep.target.getD 0⟩] else [])
    ++ (if truthyNum ep.stop then [⟨"AI STOP", ep.stop.getD 0⟩] else [])

/-- The AI price-line block: guarded by `showAIQuotes && analysis`, then
destructuring `analysis.entry_points || {}`. -/
def entryLines (cfg : ChartConfig) (analysis : Option Analysis) : List PriceLine :=
  match analysis with
  | none => []
  | some a =>
      if cfg.showAIQuotes then entryTriple (a.entry_points.getD ⟨none, none, none⟩)
      else []

/-- A rendered series: the data key it draws and its data points. -/
structure Series where
  name : String
  data : List (CTime × Int)
deriving DecidableEq

def indLookup (c : Candle) (k : String) : Option Int :=
  c.inds.lookup k

/-- JS truthiness of `d[dataKey]`: present and nonzero. -/
def indTruthy (c : Candle) (k : String) : Bool :=
  match indLookup c k with
  | some v => v != 0
  | none => false

/-- `finalData.filter(d => d[dataKey]).map(d => ({ time: d.time, value: d[dataKey] }))`. -/
def overlayData (fd : List Candle) (k : String) : List (CTime × Int) :=
  (fd.filter (fun d => indTruthy d k)).map (fun d => (d.time, (indLookup d k).getD 0))

def mkOverlay (fd : List Candle) (k : String) : Series := ⟨k, overlayData fd k⟩

/-- The moving-average overlay table (`showSMA5: 'sma_5'`, ...). -/
def maPairs : List ((ChartConfig → Bool) × String) :=
  [(fun cfg => cfg.showSMA5, "sma_5"), (fun cfg => cfg.showSMA10, "sma_10"),
   (fun cfg => cfg.showSMA20, "sma_20"), (fun cfg => cfg.showSMA50, "sma_50"),
   (fun cfg => cfg.showSMA60, "sma_60"), (fun cfg => cfg.showSMA100, "sma_100"),
   (fun cfg => cfg.showSMA120, "sma_120"), (fun cfg => cfg.showSMA200, "sma_200"),
   (fun cfg => cfg.showEMA9, "ema_9"), (fun cfg => cfg.showEMA12, "ema_12"),
   (fun cfg => cfg.showEMA20, "ema_20"), (fun cfg => cfg.showEMA26, "ema_26"),
   (fun cfg => cfg.showEMA50, "ema_50"), (fun cfg => cfg.showEMA200, "ema_200")]

def maOverlays (cfg : ChartConfig) (fd : List Candle) : List Series :=
  maPairs.foldr (fun p acc => if p.1 cfg then mkOverlay fd p.2 :: acc else acc) []

/-- The band / channel / Ichimoku / VWAP overlay blocks, in source order. -/
def bandSeries (cfg : ChartConfig) (fd : List Candle) : List Series :=
  (if cfg.showBB then [mkOverlay fd "bb_upper", mkOverlay fd "bb_lower"] else [])
    ++ (if cfg.showKC then [mkOverlay fd "kc_upper", mkOverlay fd "kc_lower"] else [])
    ++ (if cfg.showDC then [mkOverlay fd "dc_upper", mkOverlay fd "dc_lower"] else [])
    ++ (if cfg.showIchimoku then
          [mkOverlay fd "ichimoku_tenkan", mkOverlay fd "ichimoku_kijun"] else [])
    ++ (if cfg.showVWAP then [mkOverlay fd "vwap"] else [])

/-- The pivot-point and parabolic-SAR blocks. -/
def pivotSar (cfg : ChartConfig) (fd : List Candle) : List Series :=
  (if cfg.showPivot then
      [mkOverlay fd "pivot_classic", mkOverlay fd "pivot_r1", mkOverlay fd "pivot_s1"] else [])
    ++ (if cfg.showSAR then [mkOverlay fd "parabolic_sar"] else [])

/-- A pane allocation: the scale it configures and the scale margins applied. -/
structure PaneAssign where
  name : String
  top : ℚ
  bottom : ℚ
deriving DecidableEq

/-- One oscillator block of the lower section: its enabling condition, the
series it draws, the bottom margin it applies, and whether it advances the
running `paneIndex` (every block does except the final Aroon block). -/
structure OscSpec where
  enabled : Bool
  name : String
  series : List Series
  bottom : ℚ
  bump : Bool

structure OscOut where
  series : List Series
  panes : List PaneAssign
  idx : ℚ
deriving DecidableEq

/-- The fixed vertical slice `paneIndex += 0.15` (exact rationals stand in for
the JS floats; float rounding noise does not change any comparison made
here). -/
def slice : ℚ := 3 / 20

/-- `macd_hist !== undefined` — a presence test, unlike the truthiness filters
of the other oscillators. -/
def macdData (fd : List Candle) : List (CTime × Int) :=
  (fd.filter (fun d => (indLookup d "macd_hist").isSome)).map
    (fun d => (d.time, (indLookup d "macd_hist").getD 0))

/-- The oscillator blocks of `StockChart.jsx` in source order: the shared RSI
pane, MACD, Stochastic, the eleven single-series oscillators, and Aroon. -/
def oscSpecs (cfg : ChartConfig) (fd : List Candle) : List OscSpec :=
  [⟨cfg.showRSI || cfg.showRSI9 || cfg.showRSI25, "rsi-pane",
      (if cfg.showRSI then [mkOverlay fd "rsi"] else [])
        ++ (if cfg.showRSI9 then [mkOverlay fd "rsi_9"] else [])
        ++ (if cfg.showRSI25 then [mkOverlay fd "rsi_25"] else []), 3 / 20, true⟩,
   ⟨cfg.showMACD, "macd-pane", [⟨"macd_hist", macdData fd⟩], 0, true⟩,
   ⟨cfg.showStochastic, "stoch-pane",
      [mkOverlay fd "stoch_k", mkOverlay fd "stoch_d"], 3 / 20, true⟩,
   ⟨cfg.showCCI, "cci-pane", [mkOverlay fd "cci"], 3 / 20, true⟩,
   ⟨cfg.showWilliamsR, "williamsr-pane", [mkOverlay fd "williams_r"], 3 / 20, true⟩,
   ⟨cfg.showADX, "adx-pane", [mkOverlay fd "adx"], 3 / 20, true⟩,
   ⟨cfg.showOBV, "obv-pane", [mkOverlay fd "obv"], 3 / 20, true⟩,
   ⟨cfg.showMFI, "mfi-pane", [mkOverlay fd "mfi"], 3 / 20, true⟩,
   ⟨cfg.showCMF, "cmf-pane", [mkOverlay fd "cmf"], 3 / 20, true⟩,
   ⟨cfg.showROC, "roc-pane", [mkOverlay fd "roc"], 3 / 20, true⟩,
   ⟨cfg.showMomentum, "momentum-pane", [mkOverlay fd "momentum"], 3 / 20, true⟩,
   ⟨cfg.showTSI, "tsi-pane", [mkOverlay fd "tsi"], 3 / 20, true⟩,
   ⟨cfg.showUO, "uo-pane", [mkOverlay fd "uo"], 3 / 20, true⟩,
   ⟨cfg.showATR, "atr-pane", [mkOverlay fd "atr"], 3 / 20, true⟩,
   ⟨cfg.showAroon, "aroon-pane",
      [mkOverlay fd "aroon_up", mkOverlay fd "aroon_down"], 3 / 20, false⟩]

/-- One oscillator block: create its series, apply `scaleMargins` with the
current `paneIndex` as top margin, then advance `paneIndex`. -/
def oscStep (st : OscOut) (s : OscSpec) : OscOut :=
  if s.enabled then
    ⟨st.series ++ s.series, st.panes ++ [⟨s.name, st.idx, s.bottom⟩],
     if s.bump then st.idx + slice else st.idx⟩
  else st

/-- The volume block plus the initial `let paneIndex = 0.7`. -/
def oscInit (cfg : ChartConfig) (fd : List Candle) : OscOut :=
  if cfg.showVolume then
    ⟨[⟨"volume", fd.map (fun d => (d.time, d.volume))⟩], [⟨"", 4 / 5, 0⟩], 7 / 10⟩
  else ⟨[], [], 7 / 10⟩

/-- The whole lower (oscillator) section of the compositor. -/
def oscSection (cfg : ChartConfig) (fd : List Candle) : OscOut :=
  (oscSpecs cfg fd).foldl oscStep (oscInit cfg fd)

/-- The main candlestick series (its data points are the canonical candles;
only the time/close pair is kept in the model). -/
def mainSeries (fd : List Candle) : Series :=
  ⟨"candlestick", fd.map (fun d => (d.time, d.c.toNum))⟩

/-- Every series created by a successful build, in source order. -/
def builtSeries (cfg : ChartConfig) (fd : List Candle) : List Series :=
  mainSeries fd :: (maOverlays cfg fd ++ bandSeries cfg fd ++ pivotSar cfg fd
    ++ (oscSection cfg fd).series)

/-- The observable outcome of one render pass of `StockChart.jsx`: whether a
chart was constructed, the error swallowed by the `catch` (if any), and the
series and price lines created. -/
structure SCOut where
  built : Bool
  caught : Option String
  series : List Series
  lines : List PriceLine
deriving DecidableEq

/-- One pass of the chart `useEffect`. `envFail = some m` models the external
rendering surface throwing `m` out of `createChart`. The guards mirror the
source: bail out on empty input before doing anything, normalize, bail out
before construction when nothing survives, and wrap construction in
`try/catch`. -/
def renderSC (envFail : Option String) (interval : String) (data : List RawCandle)
    (cfg : ChartConfig) (analysis : Option Analysis) : SCOut :=
  if data.isEmpty then ⟨false, none, [], []⟩
  else
    let fd := normalize interval data
    if fd.isEmpty then ⟨false, none, [], []⟩
    else
      match envFail with
      | some m => ⟨false, some m, [], []⟩
      | none => ⟨true, none, builtSeries cfg fd, entryLines cfg analysis⟩

/-- C6: an empty or all-invalid candle input yields an empty canonical
sequence; chart construction is never attempted, nothing is rendered (no
series, no price lines — even when entry levels are supplied), and no error
escapes or is recorded. -/
theorem claim6_empty_renders_nothing (envFail : Option String) (interval : String)
    (data : List RawCandle) (cfg : ChartConfig) (analysis : Option Analysis)
    (hempty : data = [] ∨ ∀ d ∈ data, validRow d = false) :
    normalize interval data = []
    ∧ renderSC envFail interval data cfg analysis = ⟨false, none, [], []⟩ := by
  have hnorm : normalize interval data = [] := by
    rcases hempty with rfl | hall
    · rfl
    · have hfil : data.filter validRow = [] := by
        rw [List.filter_eq_nil_iff]
        intro d hdm
        simp [hall d hdm]
      rw [normalize, processed, hfil]
      rfl
  refine ⟨hnorm, ?_⟩
  by_cases hd : data.isEmpty = true
  · simp [renderSC, hd]
  · simp [renderSC, hd, hnorm]

/-- C6 witness: an all-invalid input together with the entry levels
`{buy: 100, target: 120, stop: 90}`. -/
theorem claim6_witness :
    normalize "1d" [⟨.invalid, .num 1, .num 1, .num 1, .num 1, 0, []⟩] = []
    ∧ renderSC none "1d" [⟨.invalid, .num 1, .num 1, .num 1, .num 1, 0, []⟩] defaultConfig
        (some ⟨some ⟨some 100, some 120, some 90⟩⟩) = ⟨false, none, [], []⟩ :=
  claim6_empty_renders_nothing none "1d" _ defaultConfig _ (Or.inr (by decide))

def idxFold : ℚ → List (Bool × Bool) → ℚ
  | q, [] => q
  | q, f :: rest => idxFold (if f.1 && f.2 then q + slice else q) rest

theorem oscStep_idx (st : OscOut) (s : OscSpec) :
    (oscStep st s).idx = if s.enabled && s.bump then st.idx + slice else st.idx := by
  cases he : s.enabled <;> cases hb : s.bump <;> simp [oscStep, he, hb]

theorem foldl_oscStep_idx : ∀ (l : List OscSpec) (st : OscOut),
    (l.foldl oscStep st).idx = idxFold st.idx (l.map (fun s => (s.enabled, s.bump))) := by
  intro l
  induction l with
  | nil => intro st; rfl
  | cons s rest ih =>
    intro st
    rw [List.foldl_cons, List.map_cons, idxFold, ih, oscStep_idx]

/-- Pointwise comparison of two pane-flag lists: same bump structure, and
every bumping pane active on the left is active on the right. -/
def flagsLe : List (Bool × Bool) → List (Bool × Bool) → Bool
  | [], [] => true
  | f :: l, f' :: l' =>
      (f.2 == f'.2) && (!(f.1 && f.2) || (f'.1 && f'.2)) && flagsLe l l'
  | _, _ => false

theorem slice_nonneg : 0 ≤ slice := by norm_num [slice]

theorem idxFold_mono : ∀ {l l' : List (Bool × Bool)} {q q' : ℚ},
    flagsLe l l' = true → q ≤ q' → idxFold q l ≤ idxFold q' l' := by
  intro l
  induction l with
  | nil =>
    intro l' q q' hf hq
    cases l' with
    | nil => exact hq
    | cons f' l' => simp [flagsLe] at hf
  | cons f l ih =>
    intro l' q q' hf hq
    cases l' with
    | nil => simp [flagsLe] at hf
    | cons f' l' =>
      simp only [flagsLe, Bool.and_eq_true] at hf
      obtain ⟨⟨_, h2⟩, h3⟩ := hf
      rw [idxFold, idxFold]
      apply ih h3
      by_cases hfr : (f'.1 && f'.2) = true
      · rw [if_pos hfr]
        by_cases hfl : (f.1 && f.2) = true
        · rw [if_pos hfl]
          exact add_le_add_right hq slice
        · rw [if_neg hfl]
          exact le_trans hq (le_add_of_nonneg_right slice_nonneg)
      · have hfl : ¬(f.1 && f.2) = true := by
          intro hfl
          rcases Bool.or_eq_true _ _ |>.mp h2 with hh | hh
          · simp [hfl] at hh
          · exact hfr hh
        rw [if_neg hfl, if_neg hfr]
        exact hq

theorem idxFold_formula : ∀ (l : List (Bool × Bool)) (q : ℚ),
    idxFold q l = q + slice * (l.countP (fun f => f.1 && f.2) : ℚ) := by
  intro l
  induction l with
  | nil => intro q; simp [idxFold]
  | cons f rest ih =>
    intro q
    rw [idxFold, ih, List.countP_cons]
    by_cases hf : (f.1 && f.2) = true
    · rw [if_pos hf]
      simp only [hf, if_pos]
      push_cast
      ring
    · rw [if_neg hf]
      simp only [Bool.not_eq_true] at hf
      simp only [hf, Bool.false_eq_true, if_false]
      push_cast
      ring

/-- The `(enabled, bumps paneIndex)` flag of each oscillator block, in source
order. -/
def paneFlags (cfg : ChartConfig) : List (Bool × Bool) :=
  [(cfg.showRSI || cfg.showRSI9 || cfg.showRSI25, true), (cfg.showMACD, true),
   (cfg.showStochastic, true), (cfg.showCCI, true), (cfg.showWilliamsR, true),
   (cfg.showADX, true), (cfg.showOBV, true), (cfg.showMFI, true), (cfg.showCMF, true),
   (cfg.showROC, true), (cfg.showMomentum, true), (cfg.showTSI, true), (cfg.showUO, true),
   (cfg.showATR, true), (cfg.showAroon, false)]

theorem oscSpecs_flags (cfg : ChartConfig) (fd : List Candle) :
    (oscSpecs cfg fd).map (fun s => (s.enabled, s.bump)) = paneFlags cfg := rfl

theorem oscInit_idx (cfg : ChartConfig) (fd : List Candle) :
    (oscInit cfg fd).idx = 7 / 10 := by
  by_cases h : cfg.showVolume = true <;> simp [oscInit, h]

/-- The number of active oscillator panes that advance the `paneIndex`
offset. -/
def bumpCount (cfg : ChartConfig) : ℕ :=
  (paneFlags cfg).countP (fun f => f.1 && f.2)

theorem oscSection_idx (cfg : ChartConfig) (fd : List Candle) :
    (oscSection cfg fd).idx = 7 / 10 + slice * (bumpCount cfg : ℚ) := by
  rw [oscSection, foldl_oscStep_idx, oscSpecs_flags, oscInit_idx, idxFold_formula, bumpCount]

/-- C8: the vertical offset reserved above the oscillator stack starts at the
fixed fraction 0.7 and grows by one fixed slice (0.15) per active
`paneIndex`-advancing oscillator pane, stacked in declaration order; hence the
reserved margin is monotone in the active pane set — toggling a pane on never
decreases it and toggling one off never increases it. -/
theorem claim8_margin_monotone (cfg cfg' : ChartConfig) (fd fd' : List Candle)
    (h : flagsLe (paneFlags cfg) (paneFlags cfg') = true) :
    (oscSection cfg fd).idx = 7 / 10 + slice * (bumpCount cfg : ℚ)
    ∧ (oscSection cfg fd).idx ≤ (oscSection cfg' fd').idx := by
  refine ⟨oscSection_idx cfg fd, ?_⟩
  rw [oscSection, oscSection, foldl_oscStep_idx, foldl_oscStep_idx, oscSpecs_flags,
    oscSpecs_flags, oscInit_idx, oscInit_idx]
  exact idxFold_mono h le_rfl

/-- C8 witness: toggling the RSI pane on from the default configuration. -/
theorem claim8_witness :
    flagsLe (paneFlags defaultConfig) (paneFlags { defaultConfig with showRSI := true }) = true
    ∧ (oscSection defaultConfig []).idx
        ≤ (oscSection { defaultConfig with showRSI := true } []).idx :=
  ⟨by decide, (claim8_margin_monotone defaultConfig _ [] [] (by decide)).2⟩

/-- C9: normalization only replaces the time key: every surviving candle keeps
the open, high, low, close, volume and all indicator fields of the input
record it originates from. -/
theorem claim9_fields_preserved (interval : String) (data : List RawCandle) :
    ∀ c ∈ normalize interval data, ∃ d ∈ data, validRow d = true ∧
      key interval d = some c.time ∧ c.o = d.o ∧ c.h = d.h ∧ c.l = d.l ∧ c.c = d.c ∧
      c.volume = d.volume ∧ c.inds = d.inds := by
  intro c hc
  obtain ⟨d, hd, hval, hk, he, _⟩ := norm_provenance hc
  exact ⟨d, hd, hval, hk, by rw [he]; rfl, by rw [he]; rfl, by rw [he]; rfl,
    by rw [he]; rfl, by rw [he]; rfl, by rw [he]; rfl⟩

/-- C9 witness: the preservation contract applied at a concrete daily input. -/
theorem claim9_witness :
    ∃ d ∈ [(⟨.valid 86400000, .num 4, .num 5, .num 3, .num 4, 99,
        [("sma_5", 42)]⟩ : RawCandle)],
      validRow d = true ∧ key "1d" d = some (CTime.day 1)
      ∧ JsVal.num 4 = d.o ∧ JsVal.num 5 = d.h ∧ JsVal.num 3 = d.l ∧ JsVal.num 4 = d.c
      ∧ 99 = d.volume ∧ [("sma_5", 42)] = d.inds :=
  claim9_fields_preserved "1d" _
    ⟨CTime.day 1, .num 4, .num 5, .num 3, .num 4, 99, [("sma_5", 42)]⟩ (by decide)

/-- C10: a numeric value equal to `0` at the public interface is treated as
absent, because the source tests JS truthiness rather than presence: an entry
level of `0` produces no corresponding price line, and a candle whose enabled
indicator field is `0` contributes no point to that indicator overlay. -/
theorem claim10_zero_is_absent :
    (∀ (cfg : ChartConfig) (a : Analysis) (ep : EntryPoints), a.entry_points = some ep →
      ((ep.buy = some 0 →
          (entryLines cfg (some a)).filter (fun pl => pl.title == "AI ENTRY") = [])
        ∧ (ep.target = some 0 →
          (entryLines cfg (some a)).filter (fun pl => pl.title == "AI TARGET") = [])
        ∧ (ep.stop = some 0 →
          (entryLines cfg (some a)).filter (fun pl => pl.title == "AI STOP") = [])))
    ∧ (∀ (l₁ l₂ : List Candle) (d : Candle) (k : String), indLookup d k = some 0 →
        overlayData (l₁ ++ d :: l₂) k = overlayData (l₁ ++ l₂) k) := by
  constructor
  · intro cfg a ep hep
    refine ⟨?_, ?_, ?_⟩ <;> intro h0 <;>
      by_cases hq : cfg.showAIQuotes = true <;>
      simp only [entryLines, hep, Option.getD_some, hq, Bool.false_eq_true, if_false,
        if_true, entryTriple, h0, truthyNum, List.filter_nil, List.filter_append] <;>
      split_ifs <;>
      simp_all [List.filter]
  · intro l₁ l₂ d k h0
    have hft : indTruthy d k = false := by simp [indTruthy, h0]
    simp [overlayData, List.filter_append, hft]

/-- C10 witness: a zero buy level produces no `AI ENTRY` line, and a candle
with `sma_5 = 0` contributes nothing to the `sma_5` overlay. -/
theorem claim10_witness :
    (entryLines defaultConfig (some ⟨some ⟨some 0, some 120, some 90⟩⟩)).filter
        (fun pl => pl.title == "AI ENTRY") = []
    ∧ overlayData ([] ++ (⟨CTime.day 1, .num 4, .num 5, .num 3, .num 4, 99,
          [("sma_5", 0)]⟩ : Candle) :: []) "sma_5"
      = overlayData ([] ++ []) "sma_5" :=
  ⟨(claim10_zero_is_absent.1 defaultConfig ⟨some ⟨some 0, some 120, some 90⟩⟩
      ⟨some 0, some 120, some 90⟩ rfl).1 rfl,
   claim10_zero_is_absent.2 [] []
      ⟨CTime.day 1, .num 4, .num 5, .num 3, .num 4, 99, [("sma_5", 0)]⟩ "sma_5" rfl⟩

end SC

namespace P7

/-- A JS time value flowing through the second chart component: a string or a
number. JS `Date` parsing of strings is supplied as an explicit `parse`
oracle mapping a string to its epoch-millisecond instant (or `none` for
`NaN`). -/
inductive JTime where
  | str (s : String)
  | num (n : Int)
deriving DecidableEq

/-- JS truthiness: the empty string and the number `0` are falsy. -/
def JTime.truthy : JTime → Bool
  | .str s => s != ""
  | .num n => n != 0

def jsMs (parse : String → Option Int) : JTime → Option Int
  | .str s => parse s
  | .num n => some n

/-- `s.split(' ')[0]`: the prefix of the string before its first space. -/
def jsSplitHead (s : String) : String :=
  ⟨s.data.takeWhile (fun ch => ch != ' ')⟩

/-- The per-value time canonicalization used both for candle times and for
pattern points: for daily-or-coarser granularities a string is truncated at
the first space; otherwise a string is replaced by floored epoch seconds when
it parses (and kept as-is when it does not); numbers pass through. -/
def resolveTime (parse : String → Option Int) (interval : String) : JTime → JTime
  | .str s =>
      if SC.isDaily interval then .str (jsSplitHead s)
      else
        match parse s with
        | some ms => .num (ms.fdiv 1000)
        | none => .str s
  | .num n => .num n

/-- A candle record of the second component, after the `item.time || item.Date`
fill-in. -/
structure Candle7 where
  time : JTime
  o : Int
  h : Int
  l : Int
  c : Int
  v : Int
  sma20 : Option Int
deriving DecidableEq

def msLe7 (parse : String → Option Int) (a b : Candle7) : Prop :=
  (jsMs parse a.time).getD 0 ≤ (jsMs parse b.time).getD 0

instance (parse : String → Option Int) : DecidableRel (msLe7 parse) :=
  fun a b => inferInstanceAs (Decidable ((jsMs parse a.time).getD 0 ≤ (jsMs parse b.time).getD 0))

/-- `filter(item => item.time).sort(...)` — truthy times only, sorted by parsed
instant (stable, like the JS sort; an unparsable time sorts with key 0, a
modelling choice for the `NaN` comparator, which no claim depends on). -/
def sorted7 (parse : String → Option Int) (data : List Candle7) : List Candle7 :=
  (data.filter (fun d => d.time.truthy)).insertionSort (msLe7 parse)

/-- The dedup walk of the second component. Unlike `StockChart.jsx` it keeps
falsy canonical times — the `Set` membership test is the only guard. -/
def final7 (parse : String → Option Int) (interval : String) :
    List Candle7 → List JTime → List Candle7
  | [], _ => []
  | d :: rest, seen =>
    let tv := resolveTime parse interval d.time
    if tv ∈ seen then final7 parse interval rest seen
    else { d with time := tv } :: final7 parse interval rest (tv :: seen)

def finalData7 (parse : String → Option Int) (interval : String)
    (data : List Candle7) : List Candle7 :=
  final7 parse interval (sorted7 parse data) []

structure PPoint where
  time : JTime
  price : Int
deriving DecidableEq

/-- An AI-detected pattern (`ptype` embeds the `type` classification tag). -/
structure Pattern where
  name : String
  ptype : String
  points : List PPoint
deriving DecidableEq

structure Marker where
  time : JTime
  text : String
deriving DecidableEq

structure PSeries where
  name : String
  data : List (JTime × Int)
deriving DecidableEq

/-- `pattern.points.map(resolve).filter(p => p.time)`. -/
def resolvedPoints (parse : String → Option Int) (interval : String)
    (pat : Pattern) : List (JTime × Int) :=
  (pat.points.map (fun p => (resolveTime parse interval p.time, p.price))).filter
    (fun q => q.1.truthy)

/-- The pattern loop: for each pattern with at least two *raw* points, a line
series is created and its resolved points set as data; when at least one point
resolved, one marker (at the first resolved point, labelled with the pattern
name) is appended to the main series' marker list by a fresh `setMarkers`
call. Returns (series, markers, number of `setMarkers` calls), all in pattern
declaration order. -/
def annotate (parse : String → Option Int) (interval : String) :
    List Pattern → List PSeries × List Marker × Nat
  | [] => ([], [], 0)
  | pat :: rest =>
    let out := annotate parse interval rest
    if 2 ≤ pat.points.length then
      let pts := resolvedPoints parse interval pat
      (⟨pat.name, pts⟩ :: out.1,
       match pts with
       | [] => out.2.1
       | q :: _ => ⟨q.1, pat.name⟩ :: out.2.1,
       match pts with
       | [] => out.2.2
       | _ :: _ => out.2.2 + 1)
    else out

theorem annotate_eq (parse : String → Option Int) (interval : String) :
    ∀ pats : List Pattern,
      (annotate parse interval pats).1 = pats.filterMap (fun p =>
        if 2 ≤ p.points.length then some ⟨p.name, resolvedPoints parse interval p⟩
        else none)
      ∧ (annotate parse interval pats).2.1 = pats.filterMap (fun p =>
        if 2 ≤ p.points.length then
          match resolvedPoints parse interval p with
          | [] => none
          | q :: _ => some ⟨q.1, p.name⟩
        else none)
      ∧ (annotate parse interval pats).2.2 = (pats.filter (fun p =>
          decide (2 ≤ p.points.length)
            && !(resolvedPoints parse interval p).isEmpty)).length := by
  intro pats
  induction pats with
  | nil => exact ⟨rfl, rfl, rfl⟩
  | cons pat rest ih =>
    obtain ⟨ih1, ih2, ih3⟩ := ih
    by_cases hg : 2 ≤ pat.points.length
    · cases hr : resolvedPoints parse interval pat with
      | nil =>
        refine ⟨?_, ?_, ?_⟩ <;>
          simp [annotate, hg, hr, ih1, ih2, ih3, List.filterMap_cons, List.filter_cons]
      | cons q qs =>
        refine ⟨?_, ?_, ?_⟩ <;>
          simp [annotate, hg, hr, ih1, ih2, ih3, List.filterMap_cons, List.filter_cons]
    · refine ⟨?_, ?_, ?_⟩ <;>
        simp [annotate, hg, ih1, ih2, ih3, List.filterMap_cons, List.filter_cons]

/-- C3 (amended): a line series is created for a pattern exactly when its *raw*
point list has at least two entries (even when fewer than two points resolve
to valid, distinct canonical times), and a marker is additionally added when
at least one point resolves truthy; a pattern with exactly one raw point never
produces a series or a marker. -/
theorem claim3_pattern_guard (parse : String → Option Int) (interval : String)
    (pats : List Pattern) :
    (annotate parse interval pats).1 = pats.filterMap (fun p =>
        if 2 ≤ p.points.length then some ⟨p.name, resolvedPoints parse interval p⟩
        else none)
    ∧ (annotate parse interval pats).2.1 = pats.filterMap (fun p =>
        if 2 ≤ p.points.length then
          match resolvedPoints parse interval p with
          | [] => none
          | q :: _ => some ⟨q.1, p.name⟩
        else none)
    ∧ (∀ p : Pattern, p.points.length = 1 → annotate parse interval [p] = ([], [], 0)) := by
  refine ⟨(annotate_eq parse interval pats).1, (annotate_eq parse interval pats).2.1, ?_⟩
  intro p hlen
  simp [annotate, hlen]

def c3pat : Pattern := ⟨"Wedge", "trend_line", [⟨.str "", 1⟩, ⟨.str "2024-01-02", 2⟩]⟩

/-- C3 counterexample: a pattern with two raw points of which only one
resolves to a valid canonical time still gets a drawn line series and a
marker, contradicting the claim that rendering requires at least two resolved,
distinct canonical times. -/
theorem claim3_cex :
    (annotate (fun _ => none) "1d" [c3pat]).1 = [⟨"Wedge", [(.str "2024-01-02", 2)]⟩]
    ∧ (annotate (fun _ => none) "1d" [c3pat]).2.1 = [⟨.str "2024-01-02", "Wedge"⟩]
    ∧ ((resolvedPoints (fun _ => none) "1d" c3pat).map (fun q => q.1)).dedup.length = 1 := by
  decide

/-- C3 witness: a one-point pattern produces neither series nor marker. -/
theorem claim3_witness :
    annotate (fun _ => none) "1d" [⟨"Doji", "neutral", [⟨.str "2024-01-05", 7⟩]⟩]
      = ([], [], 0) :=
  (claim3_pattern_guard (fun _ => none) "1d" []).2.2
    ⟨"Doji", "neutral", [⟨.str "2024-01-05", 7⟩]⟩ rfl

/-- Lexicographic comparison of char lists, used to state ascending order of
`YYYY-MM-DD` day strings (for which it coincides with chronological order). -/
def lexLe : List Char → List Char → Bool
  | [], _ => true
  | _ :: _, [] => false
  | a :: as, b :: bs => if a = b then lexLe as bs else decide (a < b)

def jleB : JTime → JTime → Bool
  | .str a, .str b => lexLe a.data b.data
  | .num a, .num b => a ≤ b
  | _, _ => false

/-- Whether a marker list is sorted by ascending time. -/
def ascendingBy (le : JTime → JTime → Bool) : List Marker → Bool
  | [] => true
  | [_] => true
  | a :: b :: rest => le a.time b.time && ascendingBy le (b :: rest)

/-- C4 (amended): the final marker array contains one marker per pattern with
at least two raw points and a nonempty resolved point list (the marker sits at
the pattern's first resolved point); every marker time is truthy (resolved);
the merge is count-preserving, so two patterns starting at the same canonical
time contribute two markers; but the list is in pattern declaration order —
it is *not* sorted by ascending time — and it is applied by one `setMarkers`
call per such pattern rather than a single call. -/
theorem claim4_marker_merge (parse : String → Option Int) (interval : String)
    (pats : List Pattern) :
    (annotate parse interval pats).2.1 = pats.filterMap (fun p =>
        if 2 ≤ p.points.length then
          match resolvedPoints parse interval p with
          | [] => none
          | q :: _ => some ⟨q.1, p.name⟩
        else none)
    ∧ (∀ m ∈ (annotate parse interval pats).2.1, m.time.truthy = true)
    ∧ (∀ t : JTime,
        ((annotate parse interval pats).2.1.filter (fun m => m.time == t)).length
          = (pats.filter (fun p => decide (2 ≤ p.points.length)
              && (match resolvedPoints parse interval p with
                  | [] => false
                  | q :: _ => q.1 == t))).length)
    ∧ (annotate parse interval pats).2.2 = (pats.filter (fun p =>
        decide (2 ≤ p.points.length)
          && !(resolvedPoints parse interval p).isEmpty)).length := by
  refine ⟨(annotate_eq parse interval pats).2.1, ?_, ?_, (annotate_eq parse interval pats).2.2⟩
  · intro m hm
    rw [(annotate_eq parse interval pats).2.1] at hm
    obtain ⟨p, _, hp⟩ := List.mem_filterMap.mp hm
    by_cases hg : 2 ≤ p.points.length
    · rw [if_pos hg] at hp
      cases hr : resolvedPoints parse interval p with
      | nil => rw [hr] at hp; cases hp
      | cons q qs =>
        rw [hr] at hp
        have hq : q ∈ resolvedPoints parse interval p := hr ▸ List.mem_cons_self _ _
        rw [resolvedPoints] at hq
        have htr : q.1.truthy = true := (List.mem_filter.mp hq).2
        cases hp
        exact htr
    · rw [if_neg hg] at hp
      cases hp
  · intro t
    induction pats with
    | nil => rfl
    | cons pat rest ih =>
      by_cases hg : 2 ≤ pat.points.length
      · cases hr : resolvedPoints parse interval pat with
        | nil => simp [annotate, hg, hr, List.filter_cons, ih]
        | cons q qs =>
          by_cases hqt : (q.1 == t) = true
          · simp [annotate, hg, hr, List.filter_cons, hqt, ih]
          · simp only [Bool.not_eq_true] at hqt
            simp [annotate, hg, hr, List.filter_cons, hqt, ih]
      · simp [annotate, hg, List.filter_cons, ih]

def c4p1 : Pattern :=
  ⟨"HeadShoulders", "bearish", [⟨.str "2024-01-03", 5⟩, ⟨.str "2024-01-04", 6⟩]⟩

def c4p2 : Pattern :=
  ⟨"Flag", "bullish_reversal", [⟨.str "2024-01-01", 3⟩, ⟨.str "2024-01-02", 4⟩]⟩

/-- C4 counterexample: two fully resolvable patterns declared out of time
order. The final marker array keeps declaration order — it is not sorted by
ascending time — and `setMarkers` is called twice, not once. -/
theorem claim4_cex :
    (annotate (fun _ => none) "1d" [c4p1, c4p2]).2.1
      = [⟨.str "2024-01-03", "HeadShoulders"⟩, ⟨.str "2024-01-01", "Flag"⟩]
    ∧ ascendingBy jleB (annotate (fun _ => none) "1d" [c4p1, c4p2]).2.1 = false
    ∧ (annotate (fun _ => none) "1d" [c4p1, c4p2]).2.2 = 2 := by
  decide

/-- C4 witness: two patterns starting at the same canonical time both keep
their markers (count-preserving merge). -/
theorem claim4_witness :
    ((annotate (fun _ => none) "1d"
        [⟨"A", "trend_line", [⟨.str "2024-02-01", 1⟩, ⟨.str "2024-02-02", 2⟩]⟩,
         ⟨"B", "trend_line", [⟨.str "2024-02-01", 3⟩, ⟨.str "2024-02-03", 4⟩]⟩]).2.1.filter
      (fun m => m.time == .str "2024-02-01")).length = 2 := by
  rw [(claim4_marker_merge (fun _ => none) "1d" _).2.2.1 (.str "2024-02-01")]
  decide

structure Analysis7 where
  entry_points : Option SC.EntryPoints
  patterns : List Pattern
deriving DecidableEq

structure Options7 where
  showVolume : Bool
  showGrid : Bool
  showSMA : Bool
  showBB : Bool
  showRSI : Bool
  showMACD : Bool
  showAIQuotes : Bool
deriving DecidableEq

/-- The chart assembled by a successful build of the second component. -/
structure Chart7 where
  candles : List Candle7
  entry : List SC.PriceLine
  pseries : List PSeries
  markers : List Marker
  markerCalls : Nat
  sma : Option (List (JTime × Int))
  volume : Option (List (JTime × Int))
  mainBottom : ℚ
deriving DecidableEq

def smaData (fd : List Candle7) : List (JTime × Int) :=
  (fd.filter (fun d => SC.truthyNum d.sma20)).map (fun d => (d.time, d.sma20.getD 0))

/-- One `buildChart` attempt. `envFail = some m` models the external rendering
surface throwing `m` out of `createChart` (everything sits inside the
function's `try`). `.ok none` models the early returns that build nothing. -/
def buildChart7 (envFail : Option String) (parse : String → Option Int)
    (interval : String) (data : List Candle7) (opts : Options7)
    (analysis : Option Analysis7) : Except String (Option Chart7) :=
  if data.isEmpty then .ok none
  else
    let fd := finalData7 parse interval data
    if fd.isEmpty then .ok none
    else
      match envFail with
      | some m => .error m
      | none =>
          let ann :=
            match analysis with
            | some a =>
                if opts.showAIQuotes then annotate parse interval a.patterns
                else ([], [], 0)
            | none => ([], [], 0)
          let entry :=
            match analysis with
            | some a =>
                if opts.showAIQuotes then
                  match a.entry_points with
                  | some ep => SC.entryTriple ep
                  | none => []
                else []
            | none => []
          .ok (some ⟨fd, entry, ann.1, ann.2.1, ann.2.2,
            if opts.showSMA then some (smaData fd) else none,
            if opts.showVolume then some (fd.map (fun d => (d.time, d.v))) else none,
            if opts.showRSI || opts.showMACD then 7 / 20 else 1 / 5⟩)

structure Comp7 where
  localError : Option String
  chart : Option Chart7
deriving DecidableEq

/-- The component after one build attempt: `buildChart` is wrapped in
`try/catch`; a thrown error lands in `setLocalError`, and the component then
renders the error message instead of the chart container. -/
def component7 (envFail : Option String) (parse : String → Option Int)
    (interval : String) (data : List Candle7) (opts : Options7)
    (analysis : Option Analysis7) : Comp7 :=
  match buildChart7 envFail parse interval data opts analysis with
  | .error m => ⟨some m, none⟩
  | .ok c => ⟨none, c⟩

/-- C7: when chart construction throws (the failure can only surface once the
guards are passed and `createChart` actually runs), the error is caught,
surfaced as the short user-visible error string, and nothing is rendered — the
component holds no chart at all, not a partial one. -/
theorem claim7_error_surfaced (parse : String → Option Int) (interval : String)
    (data : List Candle7) (opts : Options7) (analysis : Option Analysis7) (m : String)
    (hdata : data.isEmpty = false)
    (hfd : (finalData7 parse interval data).isEmpty = false) :
    component7 (some m) parse interval data opts analysis = ⟨some m, none⟩ := by
  simp [component7, buildChart7, hdata, hfd]

/-- C7 witness: a concrete build over one daily candle with a throwing
rendering surface. -/
theorem claim7_witness :
    component7 (some "Object is disposed") (fun _ => none) "1d"
        [⟨.str "2024-01-01", 1, 2, 1, 2, 9, none⟩]
        ⟨true, true, true, true, false, false, true⟩ none
      = ⟨some "Object is disposed", none⟩ :=
  claim7_error_surfaced (fun _ => none) "1d" _ _ none "Object is disposed"
    (by decide) (by decide)

end P7


namespace Draw

/-- Modelled from the spec: the repository source tree contains no
implementation of the DrawingToolController (no drawing-tool, trend-line or
pointer-handler code exists under the frontend sources); this state machine is
built from the design document's transition table for the drawing tools. -/
inductive Tool where
  | off
  | hline
  | trend
deriving DecidableEq

structure DrawPoint where
  time : Int
  price : Int
deriving DecidableEq

/-- A committed manual drawing. -/
inductive Drawing where
  | horizontal (price : Int)
  | trendLine (s e : DrawPoint)
deriving DecidableEq

/-- Modelled from the spec: the drawing session (selected tool, pending first
point, live preview segment) together with the committed drawing list. The
session is `Idle` exactly when `pending = none`; `AwaitingSecondPoint` is
`pending = some p`. -/
structure DrawState where
  tool : Tool
  pending : Option DrawPoint
  preview : Option (DrawPoint × DrawPoint)
  drawings : List Drawing
deriving DecidableEq

inductive DrawEvent where
  | click (p : DrawPoint)
  | move (p : DrawPoint)
  | setTool (t : Tool)
  | clearAll
deriving DecidableEq

/-- Modelled from the spec: one transition of the drawing-tool state machine.
A click with the horizontal-line tool commits immediately; the first trend
click records the pending point, the second commits one trend line and
returns to idle; pointer movement only updates the preview; selecting any
tool (toggling off or re-selecting) discards the pending point and preview;
the explicit clear action empties the drawing list. -/
def dstep (st : DrawState) : DrawEvent → DrawState
  | .click p =>
      match st.tool, st.pending with
      | .hline, _ =>
          { st with drawings := st.drawings ++ [.horizontal p.price],
                    pending := none, preview := none }
      | .trend, none => { st with pending := some p }
      | .trend, some q =>
          { st with drawings := st.drawings ++ [.trendLine q p],
                    pending := none, preview := none }
      | .off, _ => st
  | .move p =>
      match st.tool, st.pending with
      | .trend, some q => { st with preview := some (q, p) }
      | _, _ => st
  | .setTool t => { st with tool := t, pending := none, preview := none }
  | .clearAll => { st with drawings := [], pending := none, preview := none }

/-- C5: with the trend tool selected and the session idle, one click records
the point and moves to `AwaitingSecondPoint` without committing anything; a
second click commits exactly one trend line and returns to idle; toggling the
tool off (or re-selecting any tool) between the clicks discards the pending
point so nothing is committed. -/
theorem claim5_trend_tool_fsm (ds : List Drawing) (pv : Option (DrawPoint × DrawPoint))
    (p q : DrawPoint) (t : Tool) :
    dstep ⟨.trend, none, pv, ds⟩ (.click p) = ⟨.trend, some p, pv, ds⟩
    ∧ dstep (dstep ⟨.trend, none, pv, ds⟩ (.click p)) (.click q)
        = ⟨.trend, none, none, ds ++ [.trendLine p q]⟩
    ∧ dstep (dstep ⟨.trend, none, pv, ds⟩ (.click p)) (.setTool t)
        = ⟨t, none, none, ds⟩ :=
  ⟨rfl, rfl, rfl⟩

end Draw
